import Mathlib

/-!
Verification of the LMT linkage-configuration adapter (`ModflowLmt` in
`flopy/modflow/mflmt.py`) against its natural-language specification.

The Python class holds a handful of scalar settings, serializes them with
`write_file` into a keyword-per-line text layout, and parses that layout back
with the static `load`.  This file gives a shallow embedding of that code:

  * file contents are `String`s; the line iteration of `for line in f` is
    modelled by splitting the content at `'\n'` (`splitOnChar`).  A Python
    text line always carries its trailing `'\n'` and is never the empty
    string; both differences are inert here, because the only uses of a line
    are `line[0] == '#'` (a trailing `'\n'` never changes the first
    character) and `line.strip().split()` (which discards the newline), and
    the extra final `""` chunk our splitter can produce tokenizes to `[]`
    and is skipped by the `len(t) < 2` guard exactly like a blank line.
  * `str.strip().split()` is modelled by `words` (split on maximal runs of
    whitespace, ASCII `' '`, `'\t'`, `'\n'`, `'\r'`);
  * `str.lower()` is modelled by mapping `Char.toLower` (ASCII-faithful);
  * `int(token)` is modelled by `pyParseInt` (optional sign, ASCII decimal
    digits, single underscores allowed between digits, as in Python 3);
  * `'{:20s}'.format` / `'{:10d}'.format` are modelled by `fmt_s` / `fmt_d`;
  * the `Package`/`Model` collaborators are out of scope per the spec; the
    model object is reduced to the data the class actually reads from it
    (the version label used in the heading and the `verbose` flag), and the
    namefile/unit bookkeeping of `Package.__init__` is not modelled.
-/

/-- ASCII-faithful model of Python `str.lower()`. -/
def lowerStr (s : String) : String := String.mk (s.toList.map Char.toLower)

/-- ASCII-faithful model of Python `str.upper()` (used only spec-side). -/
def upperStr (s : String) : String := String.mk (s.toList.map Char.toUpper)

/-- Split a character list at every occurrence of `c` (the separators are
dropped).  `splitOnChar '\n'` models Python's iteration over the lines of a
text file, as explained in the header comment. -/
def splitOnChar (c : Char) : List Char → List (List Char)
  | [] => [[]]
  | x :: xs =>
    if x = c then [] :: splitOnChar c xs
    else
      match splitOnChar c xs with
      | [] => [[x]]
      | h :: t => (x :: h) :: t

/-- Model of Python `line.strip().split()`: the maximal whitespace-free runs
of a character list, in order.  (`strip()` before a no-argument `split()` is
a no-op, since `split()` already ignores leading and trailing whitespace.) -/
def words : List Char → List (List Char)
  | [] => []
  | [c] => if c.isWhitespace then [] else [[c]]
  | c :: d :: cs =>
    if c.isWhitespace then words (d :: cs)
    else
      match words (d :: cs) with
      | [] => [[c]]
      | w :: ws => if d.isWhitespace then [c] :: w :: ws else (c :: w) :: ws

theorem splitOnChar_ne_nil (c : Char) (l : List Char) : splitOnChar c l ≠ [] := by
  cases l with
  | nil => simp [splitOnChar]
  | cons x xs =>
    simp only [splitOnChar]
    split
    · simp
    · split <;> simp

theorem splitOnChar_not_mem (c : Char) (l : List Char) (h : c ∉ l) :
    splitOnChar c l = [l] := by
  induction l with
  | nil => rfl
  | cons x xs ih =>
    simp only [List.mem_cons, not_or] at h
    have hx : x ≠ c := fun hxc => h.1 hxc.symm
    simp only [splitOnChar, if_neg hx]
    rw [ih h.2]

theorem splitOnChar_append (c : Char) (l r : List Char) (h : c ∉ l) :
    splitOnChar c (l ++ c :: r) = l :: splitOnChar c r := by
  induction l with
  | nil => simp [splitOnChar]
  | cons x xs ih =>
    simp only [List.mem_cons, not_or] at h
    have hx : x ≠ c := fun hxc => h.1 hxc.symm
    simp only [List.cons_append, splitOnChar, if_neg hx, List.append_eq]
    rw [ih h.2]

theorem words_ws_cons (c : Char) (l : List Char) (h : c.isWhitespace = true) :
    words (c :: l) = words l := by
  cases l with
  | nil => simp [words, h]
  | cons d cs => simp [words, h]

theorem words_replicate_append (j : Nat) (l : List Char) :
    words (List.replicate j ' ' ++ l) = words l := by
  induction j with
  | zero => rfl
  | succ n ih =>
    rw [List.replicate_succ, List.cons_append, words_ws_cons _ _ (by decide)]
    exact ih

theorem words_replicate (j : Nat) : words (List.replicate j ' ') = [] := by
  have := words_replicate_append j []
  simpa using this

/-- The head of `rest` (if any) is whitespace; the shape of the residue after
a maximal token. -/
def headWsOrNil : List Char → Prop
  | [] => True
  | c :: _ => c.isWhitespace = true

theorem headWsOrNil_replicate (k : Nat) : headWsOrNil (List.replicate k ' ') := by
  cases k with
  | zero => trivial
  | succ n => simp [List.replicate_succ, headWsOrNil]

theorem words_token (w rest : List Char) (hne : w ≠ [])
    (hw : ∀ ch ∈ w, ch.isWhitespace = false) (hr : headWsOrNil rest) :
    words (w ++ rest) = w :: words rest := by
  induction w with
  | nil => exact absurd rfl hne
  | cons a w' ih =>
    have ha : a.isWhitespace = false := hw a (List.mem_cons_self a w')
    cases w' with
    | nil =>
      cases rest with
      | nil => simp [words, ha]
      | cons r rs =>
        have hrw : r.isWhitespace = true := hr
        simp only [List.singleton_append, words, ha, Bool.false_eq_true,
          if_false]
        rw [words_ws_cons r rs hrw]
        cases hwr : words rs with
        | nil => simp [hrw, words_ws_cons r rs hrw, hwr]
        | cons u us => simp [hrw, words_ws_cons r rs hrw, hwr]
    | cons b w'' =>
      have hb : b.isWhitespace = false := hw b (by simp)
      have ihr : words (b :: w'' ++ rest) = (b :: w'') :: words rest :=
        ih (by simp) (fun ch hch => hw ch (List.mem_cons_of_mem a hch))
      simp only [List.cons_append] at ihr ⊢
      simp [words, ha, hb, ihr]

/-- The ASCII character of a decimal digit. -/
def digitChar (d : Nat) : Char := Char.ofNat (48 + d)

/-- Fuel-driven digit accumulator behind `natToDec` (structural recursion on
the fuel keeps it kernel-reducible). -/
def natToDecAux : Nat → Nat → List Char → List Char
  | 0, _, acc => acc
  | fuel + 1, n, acc =>
    if n < 10 then digitChar n :: acc
    else natToDecAux fuel (n / 10) (digitChar (n % 10) :: acc)

/-- Decimal rendering of a natural number, as produced by Python's
`'{:d}'.format` for non-negative arguments. -/
def natToDec (n : Nat) : List Char := natToDecAux (n + 1) n []

/-- Decimal rendering of an integer, as produced by Python's `'{:d}'.format`:
an optional leading `'-'` followed by the digits. -/
def intToDec (n : Int) : List Char :=
  if n < 0 then '-' :: natToDec (-n).toNat else natToDec n.toNat

/-- Digit-and-underscore consumer behind `pyParseInt`; it is entered once a
first digit has been read.  `afterSep` records whether the previous character
was an `'_'`: an underscore must be followed by a digit and may not repeat or
end the token, exactly Python 3's grouping-underscore rule. -/
def goDigits (afterSep : Bool) (a : Nat) : List Char → Option Nat
  | [] => if afterSep then none else some a
  | c :: cs =>
    if c.isDigit then goDigits false (10 * a + (c.toNat - 48)) cs
    else if c = '_' ∧ afterSep = false then goDigits true a cs
    else none

/-- The unsigned part of Python `int()`: one or more ASCII digits, single
underscores permitted between digits. -/
def pyIntDigits : List Char → Option Nat
  | [] => none
  | c :: cs => if c.isDigit then goDigits false (c.toNat - 48) cs else none

/-- Model of Python `int(token)` on a whitespace-free ASCII token: an optional
`'+'` or `'-'` sign followed by digits (`none` models the `ValueError`). -/
def pyParseInt (l : List Char) : Option Int :=
  match l with
  | [] => none
  | c :: cs =>
    if c = '+' then (pyIntDigits cs).map Int.ofNat
    else if c = '-' then (pyIntDigits cs).map (fun n => -(n : Int))
    else (pyIntDigits (c :: cs)).map Int.ofNat

/-- The value of a digit string read left to right. -/
def valDigits (l : List Char) : Nat :=
  l.foldl (fun a c => 10 * a + (c.toNat - 48)) 0

theorem natToDecAux_fuel (n : Nat) : ∀ f g acc, n < f → n < g →
    natToDecAux f n acc = natToDecAux g n acc := by
  induction n using Nat.strong_induction_on with
  | _ n ih =>
    intro f g acc hf hg
    match f, g with
    | f' + 1, g' + 1 =>
      by_cases h10 : n < 10
      · simp [natToDecAux, h10]
      · simp only [natToDecAux, if_neg h10]
        have hlt : n / 10 < n := Nat.div_lt_self (by omega) (by omega)
        exact ih (n / 10) hlt f' g' _ (by omega) (by omega)

theorem natToDecAux_acc (f : Nat) : ∀ n acc,
    natToDecAux f n acc = natToDecAux f n [] ++ acc := by
  induction f with
  | zero => intro n acc; simp [natToDecAux]
  | succ f' ih =>
    intro n acc
    by_cases h10 : n < 10
    · simp [natToDecAux, h10]
    · simp only [natToDecAux, if_neg h10]
      rw [ih (n / 10) (digitChar (n % 10) :: acc), ih (n / 10) [digitChar (n % 10)]]
      simp

theorem natToDec_ge_ten (n : Nat) (h : 10 ≤ n) :
    natToDec n = natToDec (n / 10) ++ [digitChar (n % 10)] := by
  have h1 : natToDec n = natToDecAux n (n / 10) [digitChar (n % 10)] := by
    simp only [natToDec, natToDecAux, if_neg (by omega : ¬ n < 10)]
  have hdiv : n / 10 < n := Nat.div_lt_self (by omega) (by omega)
  rw [h1, natToDecAux_acc, natToDecAux_fuel (n / 10) n (n / 10 + 1) []
    hdiv (by omega)]
  rfl

theorem natToDec_lt_ten (n : Nat) (h : n < 10) : natToDec n = [digitChar n] := by
  simp [natToDec, natToDecAux, h]

theorem natToDec_ne_nil (n : Nat) : natToDec n ≠ [] := by
  by_cases h10 : n < 10
  · rw [natToDec_lt_ten n h10]; simp
  · rw [natToDec_ge_ten n (by omega)]; simp

theorem digitChar_toNat (d : Nat) (h : d < 10) : (digitChar d).toNat = 48 + d := by
  interval_cases d <;> decide

theorem digitChar_mem_digits (d : Nat) (h : d < 10) :
    digitChar d ∈ "0123456789".toList := by
  interval_cases d <;> decide

theorem natToDec_digits (n : Nat) : ∀ c ∈ natToDec n, c ∈ "0123456789".toList := by
  induction n using Nat.strong_induction_on with
  | _ n ih =>
    by_cases h10 : n < 10
    · rw [natToDec_lt_ten n h10]
      intro c hc
      simp only [List.mem_singleton] at hc
      exact hc ▸ digitChar_mem_digits n h10
    · rw [natToDec_ge_ten n (by omega)]
      intro c hc
      rcases List.mem_append.1 hc with h | h
      · exact ih (n / 10) (Nat.div_lt_self (by omega) (by omega)) c h
      · simp only [List.mem_singleton] at h
        exact h ▸ digitChar_mem_digits (n % 10) (Nat.mod_lt n (by omega))

theorem digit_char_facts (c : Char) (h : c ∈ "0123456789".toList) :
    c.isDigit = true ∧ c.isWhitespace = false ∧ c ≠ '+' ∧ c ≠ '-' ∧
    c ≠ '\n' ∧ c ≠ '_' := by
  fin_cases h <;> decide

theorem valDigits_natToDec (n : Nat) : valDigits (natToDec n) = n := by
  induction n using Nat.strong_induction_on with
  | _ n ih =>
    by_cases h10 : n < 10
    · rw [natToDec_lt_ten n h10]
      simp [valDigits, digitChar_toNat n h10]
    · rw [natToDec_ge_ten n (by omega)]
      have hr : valDigits (natToDec (n / 10)) = n / 10 :=
        ih (n / 10) (Nat.div_lt_self (by omega) (by omega))
      simp only [valDigits, List.foldl_append, List.foldl_cons, List.foldl_nil]
      rw [show List.foldl (fun a c => 10 * a + (c.toNat - 48)) 0 (natToDec (n / 10))
        = valDigits (natToDec (n / 10)) from rfl, hr,
        digitChar_toNat (n % 10) (Nat.mod_lt n (by omega))]
      omega

theorem goDigits_all_digits (l : List Char) : ∀ a, (∀ c ∈ l, c.isDigit = true) →
    goDigits false a l = some (l.foldl (fun a c => 10 * a + (c.toNat - 48)) a) := by
  induction l with
  | nil => intro a _; rfl
  | cons c cs ih =>
    intro a h
    have hc : c.isDigit = true := h c (List.mem_cons_self c cs)
    rw [goDigits, if_pos hc, List.foldl_cons]
    exact ih _ (fun x hx => h x (List.mem_cons_of_mem c hx))

theorem pyIntDigits_natToDec (n : Nat) : pyIntDigits (natToDec n) = some n := by
  rcases hd : natToDec n with _ | ⟨c, cs⟩
  · exact absurd hd (natToDec_ne_nil n)
  · have hall : ∀ x ∈ natToDec n, x.isDigit = true :=
      fun x hx => (digit_char_facts x (natToDec_digits n x hx)).1
    have hc : c.isDigit = true := by
      apply hall; rw [hd]; exact List.mem_cons_self c cs
    have hcs : ∀ x ∈ cs, x.isDigit = true := by
      intro x hx; apply hall; rw [hd]; exact List.mem_cons_of_mem c hx
    rw [pyIntDigits, if_pos hc]
    rw [goDigits_all_digits cs (c.toNat - 48) hcs]
    have : valDigits (c :: cs) = n := by rw [← hd]; exact valDigits_natToDec n
    simp only [valDigits, List.foldl_cons] at this
    simp only [Nat.mul_zero, Nat.zero_add] at this
    rw [this]

theorem pyParseInt_intToDec (n : Int) : pyParseInt (intToDec n) = some n := by
  by_cases hn : n < 0
  · simp only [intToDec, if_pos hn]
    rw [pyParseInt, if_neg (by decide), if_pos rfl, pyIntDigits_natToDec]
    show some (-(((-n).toNat : Int))) = some n
    have : -(((-n).toNat : Int)) = n := by omega
    rw [this]
  · simp only [intToDec, if_neg hn]
    rcases hd : natToDec n.toNat with _ | ⟨c, cs⟩
    · exact absurd hd (natToDec_ne_nil n.toNat)
    · have hmem : c ∈ "0123456789".toList := by
        apply natToDec_digits n.toNat; rw [hd]; exact List.mem_cons_self c cs
      obtain ⟨-, -, hplus, hminus, -, -⟩ := digit_char_facts c hmem
      rw [pyParseInt, if_neg hplus, if_neg hminus, ← hd, pyIntDigits_natToDec]
      simp only [Option.map_some', Int.ofNat_eq_coe]
      have : ((n.toNat : Int)) = n := by omega
      rw [this]

theorem intToDec_ne_nil (n : Int) : intToDec n ≠ [] := by
  by_cases hn : n < 0
  · simp [intToDec, hn]
  · simp only [intToDec, if_neg hn]; exact natToDec_ne_nil n.toNat

theorem intToDec_chars (n : Int) : ∀ c ∈ intToDec n, c ∈ "-0123456789".toList := by
  intro c hc
  by_cases hn : n < 0
  · simp only [intToDec, if_pos hn, List.mem_cons] at hc
    rcases hc with rfl | hc
    · decide
    · have := natToDec_digits (-n).toNat c hc
      fin_cases this <;> decide
  · simp only [intToDec, if_neg hn] at hc
    have := natToDec_digits n.toNat c hc
    fin_cases this <;> decide

theorem hyphen_digit_facts (c : Char) (h : c ∈ "-0123456789".toList) :
    c.isWhitespace = false ∧ c ≠ '\n' := by
  fin_cases h <;> decide

/-- The slice of the flopy `Modflow` model object this package actually
reads: `model.version_types[model.version]` (the version label interpolated
into the heading) and the `verbose` flag (which only gates a progress print
in `load` and has no effect on the produced object). -/
structure Model where
  versionLabel : String
  verbose : Bool

/-- The state of a `ModflowLmt` package: the five scalar/list fields the
class stores, plus the `Package`-level bookkeeping the claims mention
(`extension`, the package's own `unit_number`) and the derived `heading`
comment.  (`fn_path`, `url` and the namefile bookkeeping of the `Package`
base class are collaborator concerns, out of scope per the spec.) -/
structure ModflowLmt where
  output_file_name : String
  output_file_unit : Int
  output_file_header : String
  output_file_format : String
  package_flows : List String
  extension : String
  unit_number : Int
  heading : String
deriving DecidableEq

/-- `ModflowLmt.ftype()`: the constant file-type tag. -/
def ftype : String := "LMT6"

/-- `ModflowLmt.defaultunit()`: the constant default unit number. -/
def defaultunit : Int := 30

/-- `ModflowLmt.__init__`.  Each optional parameter carries the Python
default.  `unitnumber=None` selects `ModflowLmt.defaultunit()`; the heading
is `'# {} package for '.format(self.name[0]) + ' {}, '.format(
model.version_types[model.version]) + 'generated by Flopy.'` with
`self.name[0] = ModflowLmt.ftype()`.  The `filenames` plumbing and
`add_package` registration touch only the out-of-scope collaborators. -/
def mkModflowLmt (model : Model)
    (output_file_name : String := "mt3d_link.ftl")
    (output_file_unit : Int := 54)
    (output_file_header : String := "extended")
    (output_file_format : String := "unformatted")
    (extension : String := "lmt6")
    (package_flows : List String := [])
    (unitnumber : Option Int := none) : ModflowLmt :=
  { output_file_name := output_file_name
    output_file_unit := output_file_unit
    output_file_header := output_file_header
    output_file_format := output_file_format
    package_flows := package_flows
    extension := extension
    unit_number := match unitnumber with
      | none => defaultunit
      | some u => u
    heading := "# " ++ ftype ++ " package for " ++ " " ++ model.versionLabel
      ++ ", " ++ "generated by Flopy." }

/-- The `pckgs` string built inside `write_file`: membership of each
recognized keyword in the lower-cased `package_flows`, in the fixed order
SFR, LAK, UZF, each contributing `'XXX '`. -/
def pckgsChars (flows : List String) : List Char :=
  (if "sfr" ∈ flows.map lowerStr then "SFR ".toList else []) ++
  (if "lak" ∈ flows.map lowerStr then "LAK ".toList else []) ++
  (if "uzf" ∈ flows.map lowerStr then "UZF ".toList else [])

/-- Python `'{:N s}'.format(s)`: left-justify, pad with spaces to width `w`. -/
def fmt_s (w : Nat) (l : List Char) : List Char :=
  l ++ List.replicate (w - l.length) ' '

/-- Python `'{:N d}'.format(n)`: right-justify the decimal rendering in a
field of width `w`. -/
def fmt_d (w : Nat) (n : Int) : List Char :=
  List.replicate (w - (intToDec n).length) ' ' ++ intToDec n

/-- The characters `ModflowLmt.write_file` writes, one chunk per `f.write`
call: the heading line, `'{:20s}'`-formatted NAME/HEADER/FORMAT lines, the
`'{:20s} {:10d}'`-formatted UNIT line, and — only when `package_flows` is
non-empty — the `PACKAGE_FLOWS` line. -/
def writeChars (p : ModflowLmt) : List Char :=
  p.heading.toList ++ '\n' ::
  (fmt_s 20 ("OUTPUT_FILE_NAME ".toList ++ p.output_file_name.toList) ++ '\n' ::
  (fmt_s 20 "OUTPUT_FILE_UNIT ".toList ++ ' ' :: fmt_d 10 p.output_file_unit ++ '\n' ::
  (fmt_s 20 ("OUTPUT_FILE_HEADER ".toList ++ p.output_file_header.toList) ++ '\n' ::
  (fmt_s 20 ("OUTPUT_FILE_FORMAT ".toList ++ p.output_file_format.toList) ++ '\n' ::
  (if p.package_flows.isEmpty then []
   else "PACKAGE_FLOWS ".toList ++ pckgsChars p.package_flows ++ ['\n'])))))

/-- `ModflowLmt.write_file`: the full text written to `self.fn_path`. -/
def write_file (p : ModflowLmt) : String := String.mk (writeChars p)

/-- The mutable locals of `ModflowLmt.load` while it scans the input lines. -/
structure LoadState where
  output_file_name : String
  output_file_unit : Int
  output_file_header : String
  output_file_format : String
  package_flows : List String
deriving DecidableEq

/-- The keyword dispatch in `load`'s scan loop, applied to the token list
`t = line.strip().split()` of one line: lines with fewer than two tokens are
skipped, the five keywords are compared case-insensitively, scalar keywords
take `t[1]` (with `int(t[1])` for the unit, whose failure is the `.error`
case), `package_flows` appends all of `t[1:]`, anything else is ignored. -/
def applyTokens (s : LoadState) (t : List (List Char)) : Except String LoadState :=
  match t with
  | key :: v :: rest =>
    if key.map Char.toLower = "output_file_name".toList then
      .ok { s with output_file_name := String.mk v }
    else if key.map Char.toLower = "output_file_unit".toList then
      match pyParseInt v with
      | some n => .ok { s with output_file_unit := n }
      | none => .error (String.mk ("invalid literal for int() with base 10: ".toList ++ v))
    else if key.map Char.toLower = "output_file_header".toList then
      .ok { s with output_file_header := String.mk v }
    else if key.map Char.toLower = "output_file_format".toList then
      .ok { s with output_file_format := String.mk v }
    else if key.map Char.toLower = "package_flows".toList then
      .ok { s with package_flows := s.package_flows ++ (v :: rest).map String.mk }
    else .ok s
  | _ => .ok s

/-- One iteration of `load`'s `for line in f` loop: `line[0] == '#'` skips
the line, otherwise the tokens are dispatched. -/
def processLine (s : LoadState) (cs : List Char) : Except String LoadState :=
  if cs.head? = some '#' then .ok s else applyTokens s (words cs)

/-- The whole scan loop; the first raised parse error aborts it. -/
def processLines (s : LoadState) : List (List Char) → Except String LoadState
  | [] => .ok s
  | l :: ls =>
    match processLine s l with
    | .ok s' => processLines s' ls
    | .error e => .error e

/-- `os.path.basename` (POSIX): the part after the last `'/'`. -/
def basenameL (l : List Char) : List Char := (splitOnChar '/' l).getLastD []

/-- Re-joins dot-separated pieces; the inverse direction of `splitOnChar '.'`
used by `stripExtL`. -/
def joinDots : List (List Char) → List Char
  | [] => []
  | [x] => x
  | x :: y :: rest => x ++ '.' :: joinDots (y :: rest)

/-- `prefix[:prefix.rfind('.')]` from `load`: everything before the last
`'.'` when the name contains one; `rfind` returning `-1` otherwise makes the
slice `prefix[:-1]`, i.e. the name with its last character dropped. -/
def stripExtL (l : List Char) : List Char :=
  let parts := splitOnChar '.' l
  if 2 ≤ parts.length then joinDots parts.dropLast else l.dropLast

/-- `ModflowLmt.load`.  `fname` is the path argument `f`, `content` the text
that iterating the opened file yields, `m` the owning model.  The
`ext_unit_dict` lookup concerns only the out-of-scope unit-table
collaborator and corresponds here to the `unitnumber = none` default. -/
def load (fname content : String) (m : Model) : Except String ModflowLmt :=
  let st0 : LoadState := {
    output_file_name := String.mk (stripExtL (basenameL fname.toList) ++ ".ftl".toList)
    output_file_unit := 333
    output_file_header := "standard"
    output_file_format := "unformatted"
    package_flows := [] }
  match processLines st0 (splitOnChar '\n' content.toList) with
  | .error e => .error e
  | .ok s => .ok (mkModflowLmt m s.output_file_name s.output_file_unit
      s.output_file_header s.output_file_format "lmt6" s.package_flows none)

theorem mk_toList (s : String) : String.mk s.toList = s := by
  cases s; rfl

theorem toList_append (a b : String) : (a ++ b).toList = a.toList ++ b.toList := by
  cases a; cases b; rfl

/-- A single whitespace-free token: non-empty and containing no whitespace
character (hence in particular no newline). -/
def isTokenL (l : List Char) : Prop :=
  l ≠ [] ∧ ∀ c ∈ l, c.isWhitespace = false

/-- Spec-side rendering of the `PACKAGE_FLOWS` value: the recognized members
present in `package_flows` (compared case-insensitively), as a subset of the
canonical order sfr, lak, uzf, upper-cased. -/
def canonicalSubset (flows : List String) : List String :=
  (["sfr", "lak", "uzf"].filter (fun k => decide (k ∈ flows.map lowerStr))).map upperStr

/-- Spec-side characters of the `PACKAGE_FLOWS` value: the canonical subset,
space-separated (each token carries its following blank, as written). -/
def canonicalFlowsChars (flows : List String) : List Char :=
  ((canonicalSubset flows).map (fun w => w.toList ++ [' '])).flatten

theorem canonicalSubset_ifs (flows : List String) : canonicalSubset flows =
    (if "sfr" ∈ flows.map lowerStr then ["SFR"] else []) ++
    ((if "lak" ∈ flows.map lowerStr then ["LAK"] else []) ++
    (if "uzf" ∈ flows.map lowerStr then ["UZF"] else [])) := by
  by_cases h1 : "sfr" ∈ flows.map lowerStr <;>
    by_cases h2 : "lak" ∈ flows.map lowerStr <;>
      by_cases h3 : "uzf" ∈ flows.map lowerStr <;>
        simp only [List.mem_map] at h1 h2 h3 <;>
          simp [canonicalSubset, List.filter_cons, h1, h2, h3, upperStr]

theorem pckgs_canonical (flows : List String) :
    pckgsChars flows = canonicalFlowsChars flows := by
  rw [canonicalFlowsChars, canonicalSubset_ifs]
  by_cases h1 : "sfr" ∈ flows.map lowerStr <;>
    by_cases h2 : "lak" ∈ flows.map lowerStr <;>
      by_cases h3 : "uzf" ∈ flows.map lowerStr <;>
        simp [pckgsChars, h1, h2, h3]

theorem pckgs_words (flows : List String) :
    (words (pckgsChars flows)).map String.mk = canonicalSubset flows := by
  rw [canonicalSubset_ifs]
  by_cases h1 : "sfr" ∈ flows.map lowerStr <;>
    by_cases h2 : "lak" ∈ flows.map lowerStr <;>
      by_cases h3 : "uzf" ∈ flows.map lowerStr <;>
        simp only [pckgsChars, h1, h2, h3, if_true, if_false] <;> decide

theorem words_keyline (K v : List Char) (k : Nat)
    (hKne : K ≠ []) (hKw : ∀ c ∈ K, c.isWhitespace = false) (hv : isTokenL v) :
    words (K ++ ' ' :: (v ++ List.replicate k ' ')) = [K, v] := by
  rw [words_token K (' ' :: (v ++ List.replicate k ' ')) hKne hKw rfl,
    words_ws_cons ' ' (v ++ List.replicate k ' ') rfl,
    words_token v (List.replicate k ' ') hv.1 hv.2 (headWsOrNil_replicate k),
    words_replicate]

theorem processLine_comment (s : LoadState) (cs : List Char)
    (h : cs.head? = some '#') : processLine s cs = .ok s := by
  simp [processLine, h]

theorem processLine_nil (s : LoadState) : processLine s [] = .ok s := by
  simp [processLine, applyTokens, words]

theorem applyTokens_name (s : LoadState) (key v : List Char) (rest : List (List Char))
    (hk : key.map Char.toLower = "output_file_name".toList) :
    applyTokens s (key :: v :: rest) = .ok { s with output_file_name := String.mk v } := by
  simp only [applyTokens]
  rw [hk]
  rw [if_pos rfl]

theorem applyTokens_unit (s : LoadState) (key v : List Char) (rest : List (List Char))
    (hk : key.map Char.toLower = "output_file_unit".toList) :
    applyTokens s (key :: v :: rest) = (match pyParseInt v with
      | some n => .ok { s with output_file_unit := n }
      | none => .error (String.mk ("invalid literal for int() with base 10: ".toList ++ v))) := by
  simp only [applyTokens]
  rw [hk]
  rw [if_neg (by decide), if_pos rfl]

theorem applyTokens_header (s : LoadState) (key v : List Char) (rest : List (List Char))
    (hk : key.map Char.toLower = "output_file_header".toList) :
    applyTokens s (key :: v :: rest) = .ok { s with output_file_header := String.mk v } := by
  simp only [applyTokens]
  rw [hk]
  rw [if_neg (by decide), if_neg (by decide), if_pos rfl]

theorem applyTokens_format (s : LoadState) (key v : List Char) (rest : List (List Char))
    (hk : key.map Char.toLower = "output_file_format".toList) :
    applyTokens s (key :: v :: rest) = .ok { s with output_file_format := String.mk v } := by
  simp only [applyTokens]
  rw [hk]
  rw [if_neg (by decide), if_neg (by decide), if_neg (by decide), if_pos rfl]

theorem applyTokens_pkg (s : LoadState) (key v : List Char) (rest : List (List Char))
    (hk : key.map Char.toLower = "package_flows".toList) :
    applyTokens s (key :: v :: rest)
      = .ok { s with package_flows := s.package_flows ++ (v :: rest).map String.mk } := by
  simp only [applyTokens]
  rw [hk]
  rw [if_neg (by decide), if_neg (by decide), if_neg (by decide), if_neg (by decide),
    if_pos rfl]

theorem applyTokens_other (s : LoadState) (key v : List Char) (rest : List (List Char))
    (hk : key.map Char.toLower ∉
      ["output_file_name".toList, "output_file_unit".toList, "output_file_header".toList,
       "output_file_format".toList, "package_flows".toList]) :
    applyTokens s (key :: v :: rest) = .ok s := by
  simp only [List.mem_cons, List.mem_singleton, not_or] at hk
  obtain ⟨n1, n2, n3, n4, n5, -⟩ := hk
  simp only [applyTokens]
  rw [if_neg n1, if_neg n2, if_neg n3, if_neg n4, if_neg n5]

theorem applyTokens_short (s : LoadState) (t : List (List Char)) (h : t.length < 2) :
    applyTokens s t = .ok s := by
  rcases t with _ | ⟨x, _ | ⟨y, r⟩⟩
  · rfl
  · rfl
  · simp only [List.length_cons] at h
    exact absurd h (by omega)

theorem processLine_not_hash (s : LoadState) (cs : List Char) (h : cs.head? ≠ some '#') :
    processLine s cs = applyTokens s (words cs) := by
  simp [processLine, h]

theorem words_single (w : List Char) (hne : w ≠ [])
    (hw : ∀ ch ∈ w, ch.isWhitespace = false) : words w = [w] := by
  have := words_token w [] hne hw trivial
  simpa using this

theorem intToDec_no_ws (n : Int) : ∀ c ∈ intToDec n, c.isWhitespace = false :=
  fun c hc => (hyphen_digit_facts c (intToDec_chars n c hc)).1

theorem intToDec_no_newline (n : Int) : '\n' ∉ intToDec n := by
  intro h
  exact absurd rfl (hyphen_digit_facts '\n' (intToDec_chars n '\n' h)).2

theorem processLine_nameLine (s : LoadState) (v : List Char) (k : Nat) (hv : isTokenL v) :
    processLine s ("OUTPUT_FILE_NAME ".toList ++ v ++ List.replicate k ' ')
      = .ok { s with output_file_name := String.mk v } := by
  rw [show processLine s ("OUTPUT_FILE_NAME ".toList ++ v ++ List.replicate k ' ')
      = processLine s ("OUTPUT_FILE_NAME".toList ++ ' ' :: (v ++ List.replicate k ' '))
      from rfl]
  rw [processLine_not_hash s ("OUTPUT_FILE_NAME".toList ++ ' ' :: (v ++ List.replicate k ' '))
    (fun hcontra => absurd
      (show (some 'O' : Option Char) = some '#' from hcontra) (by decide))]
  rw [words_keyline "OUTPUT_FILE_NAME".toList v k (by decide) (by decide) hv]
  exact applyTokens_name s _ v [] (by decide)

theorem processLine_headerLine (s : LoadState) (v : List Char) (k : Nat) (hv : isTokenL v) :
    processLine s ("OUTPUT_FILE_HEADER ".toList ++ v ++ List.replicate k ' ')
      = .ok { s with output_file_header := String.mk v } := by
  rw [show processLine s ("OUTPUT_FILE_HEADER ".toList ++ v ++ List.replicate k ' ')
      = processLine s ("OUTPUT_FILE_HEADER".toList ++ ' ' :: (v ++ List.replicate k ' '))
      from rfl]
  rw [processLine_not_hash s ("OUTPUT_FILE_HEADER".toList ++ ' ' :: (v ++ List.replicate k ' '))
    (fun hcontra => absurd
      (show (some 'O' : Option Char) = some '#' from hcontra) (by decide))]
  rw [words_keyline "OUTPUT_FILE_HEADER".toList v k (by decide) (by decide) hv]
  exact applyTokens_header s _ v [] (by decide)

theorem processLine_formatLine (s : LoadState) (v : List Char) (k : Nat) (hv : isTokenL v) :
    processLine s ("OUTPUT_FILE_FORMAT ".toList ++ v ++ List.replicate k ' ')
      = .ok { s with output_file_format := String.mk v } := by
  rw [show processLine s ("OUTPUT_FILE_FORMAT ".toList ++ v ++ List.replicate k ' ')
      = processLine s ("OUTPUT_FILE_FORMAT".toList ++ ' ' :: (v ++ List.replicate k ' '))
      from rfl]
  rw [processLine_not_hash s ("OUTPUT_FILE_FORMAT".toList ++ ' ' :: (v ++ List.replicate k ' '))
    (fun hcontra => absurd
      (show (some 'O' : Option Char) = some '#' from hcontra) (by decide))]
  rw [words_keyline "OUTPUT_FILE_FORMAT".toList v k (by decide) (by decide) hv]
  exact applyTokens_format s _ v [] (by decide)

theorem processLine_unitLine (s : LoadState) (n : Int) :
    processLine s (fmt_s 20 "OUTPUT_FILE_UNIT ".toList ++ ' ' :: fmt_d 10 n)
      = .ok { s with output_file_unit := n } := by
  rw [show processLine s (fmt_s 20 "OUTPUT_FILE_UNIT ".toList ++ ' ' :: fmt_d 10 n)
      = processLine s ("OUTPUT_FILE_UNIT".toList
          ++ ' ' :: (List.replicate 3 ' ' ++ ' ' :: fmt_d 10 n)) from rfl]
  rw [processLine_not_hash s ("OUTPUT_FILE_UNIT".toList
      ++ ' ' :: (List.replicate 3 ' ' ++ ' ' :: fmt_d 10 n))
    (fun hcontra => absurd
      (show (some 'O' : Option Char) = some '#' from hcontra) (by decide))]
  rw [words_token "OUTPUT_FILE_UNIT".toList (' ' :: (List.replicate 3 ' ' ++ ' ' :: fmt_d 10 n))
      (by decide) (by decide) rfl,
    words_ws_cons ' ' (List.replicate 3 ' ' ++ ' ' :: fmt_d 10 n) rfl,
    words_replicate_append 3 (' ' :: fmt_d 10 n),
    words_ws_cons ' ' (fmt_d 10 n) rfl]
  simp only [fmt_d]
  rw [words_replicate_append,
    words_single (intToDec n) (intToDec_ne_nil n) (intToDec_no_ws n)]
  rw [applyTokens_unit s _ (intToDec n) [] (by decide)]
  rw [pyParseInt_intToDec]

theorem processLine_pkgLine (s : LoadState) (flows : List String) :
    processLine s ("PACKAGE_FLOWS ".toList ++ pckgsChars flows)
      = .ok { s with package_flows := s.package_flows ++ canonicalSubset flows } := by
  rw [show processLine s ("PACKAGE_FLOWS ".toList ++ pckgsChars flows)
      = processLine s ("PACKAGE_FLOWS".toList ++ ' ' :: pckgsChars flows) from rfl]
  rw [processLine_not_hash s ("PACKAGE_FLOWS".toList ++ ' ' :: pckgsChars flows)
    (fun hcontra => absurd
      (show (some 'P' : Option Char) = some '#' from hcontra) (by decide))]
  rw [words_token "PACKAGE_FLOWS".toList (' ' :: pckgsChars flows)
      (by decide) (by decide) rfl,
    words_ws_cons ' ' (pckgsChars flows) rfl]
  rcases hcase : words (pckgsChars flows) with _ | ⟨v, rest⟩
  · rw [applyTokens_short s _ (by simp)]
    have hcs : canonicalSubset flows = [] := by
      rw [← pckgs_words, hcase]; rfl
    rw [hcs]
    simp
  · rw [applyTokens_pkg s _ v rest (by decide)]
    have hcs : (v :: rest).map String.mk = canonicalSubset flows := by
      rw [← pckgs_words, hcase]
    rw [hcs]

theorem processLines_append (L1 L2 : List (List Char)) : ∀ s s',
    processLines s (L1 ++ L2) = .ok s' →
    ∃ s1, processLines s L1 = .ok s1 ∧ processLines s1 L2 = .ok s' := by
  induction L1 with
  | nil => exact fun s s' h => ⟨s, rfl, h⟩
  | cons l ls ih =>
    intro s s' h
    simp only [List.cons_append, processLines] at h ⊢
    cases hpl : processLine s l with
    | error e => rw [hpl] at h; exact absurd h (by simp)
    | ok s1 =>
      rw [hpl] at h
      exact ih s1 s' h

/-- The contribution of one input line to `package_flows`: the tokens after a
recognized `package_flows` keyword, nothing otherwise. -/
def lineFlows (cs : List Char) : List String :=
  if cs.head? = some '#' then []
  else
    match words cs with
    | key :: v :: rest =>
      if key.map Char.toLower = "package_flows".toList then (v :: rest).map String.mk
      else []
    | _ => []

/-- All `package_flows` tokens contributed by a list of input lines, in
order. -/
def collectFlows (lines : List (List Char)) : List String :=
  (lines.map lineFlows).flatten

theorem processLine_flows (s : LoadState) (cs : List Char) (s' : LoadState)
    (h : processLine s cs = .ok s') :
    s'.package_flows = s.package_flows ++ lineFlows cs := by
  by_cases hh : cs.head? = some '#'
  · rw [processLine_comment s cs hh] at h
    injection h with h
    subst h
    simp [lineFlows, hh]
  · rw [processLine_not_hash s cs hh] at h
    rw [lineFlows, if_neg hh]
    rcases hw : words cs with _ | ⟨key, _ | ⟨v, rest⟩⟩ <;> rw [hw] at h
    · rw [show applyTokens s [] = Except.ok s from rfl] at h
      injection h with h
      subst h
      simp
    · rw [show applyTokens s [key] = Except.ok s from rfl] at h
      injection h with h
      subst h
      simp
    · simp only []
      by_cases hk1 : key.map Char.toLower = "output_file_name".toList
      · rw [applyTokens_name s key v rest hk1] at h
        injection h with h
        subst h
        rw [if_neg (by rw [hk1]; decide)]
        simp
      · by_cases hk2 : key.map Char.toLower = "output_file_unit".toList
        · rw [applyTokens_unit s key v rest hk2] at h
          rcases hp : pyParseInt v with _ | n <;> rw [hp] at h
          · simp at h
          · injection h with h
            subst h
            rw [if_neg (by rw [hk2]; decide)]
            simp
        · by_cases hk3 : key.map Char.toLower = "output_file_header".toList
          · rw [applyTokens_header s key v rest hk3] at h
            injection h with h
            subst h
            rw [if_neg (by rw [hk3]; decide)]
            simp
          · by_cases hk4 : key.map Char.toLower = "output_file_format".toList
            · rw [applyTokens_format s key v rest hk4] at h
              injection h with h
              subst h
              rw [if_neg (by rw [hk4]; decide)]
              simp
            · by_cases hk5 : key.map Char.toLower = "package_flows".toList
              · rw [applyTokens_pkg s key v rest hk5] at h
                injection h with h
                subst h
                rw [if_pos hk5]
              · rw [applyTokens_other s key v rest (by
                  simp only [List.mem_cons, List.mem_singleton, not_or]
                  exact ⟨hk1, hk2, hk3, hk4, hk5, by simp⟩)] at h
                injection h with h
                subst h
                rw [if_neg hk5]
                simp

theorem processLines_flows (lines : List (List Char)) : ∀ s s',
    processLines s lines = .ok s' →
    s'.package_flows = s.package_flows ++ collectFlows lines := by
  induction lines with
  | nil =>
    intro s s' h
    injection h with h
    subst h
    simp [collectFlows]
  | cons l ls ih =>
    intro s s' h
    simp only [processLines] at h
    cases hpl : processLine s l with
    | error e => rw [hpl] at h; exact absurd h (by simp)
    | ok s1 =>
      rw [hpl] at h
      rw [ih s1 s' h, processLine_flows s l s1 hpl]
      simp [collectFlows]

/-- Decides whether one input line makes `load` raise: a non-comment line
whose first token is `output_file_unit` (case-insensitively) and whose second
token `int()` cannot parse. -/
def isBadUnitLine (cs : List Char) : Bool :=
  if cs.head? = some '#' then false
  else
    match words cs with
    | key :: v :: _ =>
      decide (key.map Char.toLower = "output_file_unit".toList) && (pyParseInt v).isNone
    | _ => false

theorem processLine_error_iff (s : LoadState) (cs : List Char) :
    (∃ e, processLine s cs = .error e) ↔ isBadUnitLine cs = true := by
  by_cases hh : cs.head? = some '#'
  · rw [processLine_comment s cs hh]
    simp [isBadUnitLine, hh]
  · rw [processLine_not_hash s cs hh]
    rw [isBadUnitLine, if_neg hh]
    rcases hw : words cs with _ | ⟨key, _ | ⟨v, rest⟩⟩
    · rw [show applyTokens s [] = Except.ok s from rfl]
      simp
    · rw [show applyTokens s [key] = Except.ok s from rfl]
      simp
    · simp only []
      by_cases hk1 : key.map Char.toLower = "output_file_name".toList
      · rw [applyTokens_name s key v rest hk1]
        simp [decide_eq_true_eq]
        intro hk2
        rw [hk1] at hk2
        exact absurd hk2 (by decide)
      · by_cases hk2 : key.map Char.toLower = "output_file_unit".toList
        · rw [applyTokens_unit s key v rest hk2]
          rcases hp : pyParseInt v with _ | n
          · simp [hk2, hp]
          · simp [hk2, hp]
        · by_cases hk3 : key.map Char.toLower = "output_file_header".toList
          · rw [applyTokens_header s key v rest hk3]
            simp [hk2]
            exact fun hx => absurd hx hk2
          · by_cases hk4 : key.map Char.toLower = "output_file_format".toList
            · rw [applyTokens_format s key v rest hk4]
              simp [hk2]
              exact fun hx => absurd hx hk2
            · by_cases hk5 : key.map Char.toLower = "package_flows".toList
              · rw [applyTokens_pkg s key v rest hk5]
                simp [hk2]
                exact fun hx => absurd hx hk2
              · rw [applyTokens_other s key v rest (by
                  simp only [List.mem_cons, List.mem_singleton, not_or]
                  exact ⟨hk1, hk2, hk3, hk4, hk5, by simp⟩)]
                simp [hk2]
                exact fun hx => absurd hx hk2

theorem processLines_error_iff (lines : List (List Char)) : ∀ s,
    (∃ e, processLines s lines = .error e) ↔ ∃ cs ∈ lines, isBadUnitLine cs = true := by
  induction lines with
  | nil => intro s; simp [processLines]
  | cons l ls ih =>
    intro s
    simp only [processLines]
    cases hpl : processLine s l with
    | error e =>
      simp only [List.mem_cons]
      constructor
      · intro _
        exact ⟨l, Or.inl rfl, (processLine_error_iff s l).1 ⟨e, hpl⟩⟩
      · intro _
        exact ⟨e, rfl⟩
    | ok s1 =>
      have hnotbad : isBadUnitLine l = false := by
        by_contra hcon
        rw [Bool.not_eq_false] at hcon
        obtain ⟨e, he⟩ := (processLine_error_iff s l).2 hcon
        rw [hpl] at he
        exact absurd he (by simp)
      rw [ih s1]
      simp [hnotbad]

theorem no_nl_fmt_s (w : Nat) (l : List Char) (h : '\n' ∉ l) :
    '\n' ∉ fmt_s w l := by
  intro hmem
  rcases List.mem_append.1 hmem with hx | hx
  · exact h hx
  · exact absurd (List.eq_of_mem_replicate hx) (by decide)

theorem no_nl_append (a b : List Char) (ha : '\n' ∉ a) (hb : '\n' ∉ b) :
    '\n' ∉ a ++ b := by
  intro hmem
  rcases List.mem_append.1 hmem with hx | hx
  · exact ha hx
  · exact hb hx

theorem no_nl_fmt_d (w : Nat) (n : Int) : '\n' ∉ fmt_d w n := by
  refine no_nl_append _ _ ?_ (intToDec_no_newline n)
  intro hmem
  exact absurd (List.eq_of_mem_replicate hmem) (by decide)

theorem no_nl_pckgs (flows : List String) : '\n' ∉ pckgsChars flows := by
  by_cases h1 : "sfr" ∈ flows.map lowerStr <;>
    by_cases h2 : "lak" ∈ flows.map lowerStr <;>
      by_cases h3 : "uzf" ∈ flows.map lowerStr <;>
        simp only [pckgsChars, h1, h2, h3, if_true, if_false] <;> decide

theorem token_no_nl (v : List Char) (hv : ∀ c ∈ v, c.isWhitespace = false) :
    '\n' ∉ v := by
  intro hmem
  have := hv '\n' hmem
  exact absurd this (by decide)

theorem splitOnChar_writeChars (p : ModflowLmt)
    (hh : '\n' ∉ p.heading.toList)
    (hn : '\n' ∉ p.output_file_name.toList)
    (hhd : '\n' ∉ p.output_file_header.toList)
    (hf : '\n' ∉ p.output_file_format.toList) :
    splitOnChar '\n' (writeChars p) =
      [p.heading.toList,
       fmt_s 20 ("OUTPUT_FILE_NAME ".toList ++ p.output_file_name.toList),
       fmt_s 20 "OUTPUT_FILE_UNIT ".toList ++ ' ' :: fmt_d 10 p.output_file_unit,
       fmt_s 20 ("OUTPUT_FILE_HEADER ".toList ++ p.output_file_header.toList),
       fmt_s 20 ("OUTPUT_FILE_FORMAT ".toList ++ p.output_file_format.toList)] ++
      (if p.package_flows.isEmpty then [[]]
       else [("PACKAGE_FLOWS ".toList ++ pckgsChars p.package_flows), []]) := by
  rw [writeChars]
  rw [splitOnChar_append '\n' _ _ hh]
  rw [splitOnChar_append '\n' _ _ (no_nl_fmt_s 20 _
    (no_nl_append _ _ (by decide) hn))]
  rw [splitOnChar_append '\n' _ _ (no_nl_append _ _
    (no_nl_fmt_s 20 _ (by decide)) (by
      intro hmem
      rcases List.mem_cons.1 hmem with hx | hx
      · exact absurd hx (by decide)
      · exact no_nl_fmt_d 10 p.output_file_unit hx))]
  rw [splitOnChar_append '\n' _ _ (no_nl_fmt_s 20 _
    (no_nl_append _ _ (by decide) hhd))]
  rw [splitOnChar_append '\n' _ _ (no_nl_fmt_s 20 _
    (no_nl_append _ _ (by decide) hf))]
  by_cases hflows : p.package_flows.isEmpty
  · rw [if_pos hflows, if_pos hflows]
    rfl
  · rw [if_neg hflows, if_neg hflows]
    rw [show ("PACKAGE_FLOWS ".toList ++ pckgsChars p.package_flows ++ ['\n'])
        = ("PACKAGE_FLOWS ".toList ++ pckgsChars p.package_flows) ++ '\n' :: [] from by
      simp [List.append_assoc]]
    rw [splitOnChar_append '\n' _ _ (no_nl_append _ _ (by decide)
      (no_nl_pckgs p.package_flows))]
    rfl

theorem processLines_cons_ok (s s' : LoadState) (l : List Char) (ls : List (List Char))
    (h : processLine s l = .ok s') :
    processLines s (l :: ls) = processLines s' ls := by
  simp only [processLines, h]

/-- Claim C1: for every LinkageConfig whose `outputFileName`,
`outputFileHeader` and `outputFileFormat` are single whitespace-free tokens
and whose `packageFlows` is any combination of the three recognized tokens in
any case, `write_file` followed by `load` of the written text yields a
LinkageConfig with the same `outputFileName`, `outputFileUnit`,
`outputFileHeader`, `outputFileFormat`, and the canonical-order subset of
`packageFlows` (compared case-insensitively). -/
theorem c1_round_trip (p : ModflowLmt) (m : Model) (fname : String)
    (hhead : p.heading.toList.head? = some '#')
    (hnl : '\n' ∉ p.heading.toList)
    (hname : isTokenL p.output_file_name.toList)
    (hheader : isTokenL p.output_file_header.toList)
    (hformat : isTokenL p.output_file_format.toList)
    (_hflows : ∀ x ∈ p.package_flows,
      lowerStr x = "sfr" ∨ lowerStr x = "lak" ∨ lowerStr x = "uzf") :
    ∃ q : ModflowLmt, load fname (write_file p) m = .ok q ∧
      q.output_file_name = p.output_file_name ∧
      q.output_file_unit = p.output_file_unit ∧
      q.output_file_header = p.output_file_header ∧
      q.output_file_format = p.output_file_format ∧
      q.package_flows = canonicalSubset p.package_flows := by
  have hn : '\n' ∉ p.output_file_name.toList := token_no_nl _ hname.2
  have hhd : '\n' ∉ p.output_file_header.toList := token_no_nl _ hheader.2
  have hf : '\n' ∉ p.output_file_format.toList := token_no_nl _ hformat.2
  simp only [load]
  rw [show (write_file p).toList = writeChars p from rfl]
  rw [splitOnChar_writeChars p hnl hn hhd hf]
  simp only [List.cons_append, List.nil_append]
  have h2 : processLine
      { output_file_name := String.mk (stripExtL (basenameL fname.toList) ++ ".ftl".toList)
        output_file_unit := 333
        output_file_header := "standard"
        output_file_format := "unformatted"
        package_flows := [] }
      (fmt_s 20 ("OUTPUT_FILE_NAME ".toList ++ p.output_file_name.toList))
      = .ok { output_file_name := String.mk p.output_file_name.toList
              output_file_unit := 333
              output_file_header := "standard"
              output_file_format := "unformatted"
              package_flows := [] } :=
    processLine_nameLine _ p.output_file_name.toList _ hname
  have h3 : processLine
      { output_file_name := String.mk p.output_file_name.toList
        output_file_unit := 333
        output_file_header := "standard"
        output_file_format := "unformatted"
        package_flows := [] }
      (fmt_s 20 "OUTPUT_FILE_UNIT ".toList ++ ' ' :: fmt_d 10 p.output_file_unit)
      = .ok { output_file_name := String.mk p.output_file_name.toList
              output_file_unit := p.output_file_unit
              output_file_header := "standard"
              output_file_format := "unformatted"
              package_flows := [] } :=
    processLine_unitLine _ p.output_file_unit
  have h4 : processLine
      { output_file_name := String.mk p.output_file_name.toList
        output_file_unit := p.output_file_unit
        output_file_header := "standard"
        output_file_format := "unformatted"
        package_flows := [] }
      (fmt_s 20 ("OUTPUT_FILE_HEADER ".toList ++ p.output_file_header.toList))
      = .ok { output_file_name := String.mk p.output_file_name.toList
              output_file_unit := p.output_file_unit
              output_file_header := String.mk p.output_file_header.toList
              output_file_format := "unformatted"
              package_flows := [] } :=
    processLine_headerLine _ p.output_file_header.toList _ hheader
  have h5 : processLine
      { output_file_name := String.mk p.output_file_name.toList
        output_file_unit := p.output_file_unit
        output_file_header := String.mk p.output_file_header.toList
        output_file_format := "unformatted"
        package_flows := [] }
      (fmt_s 20 ("OUTPUT_FILE_FORMAT ".toList ++ p.output_file_format.toList))
      = .ok { output_file_name := String.mk p.output_file_name.toList
              output_file_unit := p.output_file_unit
              output_file_header := String.mk p.output_file_header.toList
              output_file_format := String.mk p.output_file_format.toList
              package_flows := [] } :=
    processLine_formatLine _ p.output_file_format.toList _ hformat
  rw [processLines_cons_ok _ _ _ _ (processLine_comment _ _ hhead),
    processLines_cons_ok _ _ _ _ h2, processLines_cons_ok _ _ _ _ h3,
    processLines_cons_ok _ _ _ _ h4, processLines_cons_ok _ _ _ _ h5]
  by_cases hfl : p.package_flows.isEmpty
  · rw [if_pos hfl]
    rw [processLines_cons_ok _ _ _ _ (processLine_nil _)]
    simp only [processLines]
    refine ⟨_, rfl, mk_toList _, rfl, mk_toList _, mk_toList _, ?_⟩
    rw [List.isEmpty_iff.mp hfl]
    show ([] : List String) = canonicalSubset []
    decide
  · rw [if_neg hfl]
    have h6 : processLine
        { output_file_name := String.mk p.output_file_name.toList
          output_file_unit := p.output_file_unit
          output_file_header := String.mk p.output_file_header.toList
          output_file_format := String.mk p.output_file_format.toList
          package_flows := [] }
        ("PACKAGE_FLOWS ".toList ++ pckgsChars p.package_flows)
        = .ok { output_file_name := String.mk p.output_file_name.toList
                output_file_unit := p.output_file_unit
                output_file_header := String.mk p.output_file_header.toList
                output_file_format := String.mk p.output_file_format.toList
                package_flows := canonicalSubset p.package_flows } :=
      processLine_pkgLine _ p.package_flows
    rw [processLines_cons_ok _ _ _ _ h6,
      processLines_cons_ok _ _ _ _ (processLine_nil _)]
    simp only [processLines]
    exact ⟨_, rfl, mk_toList _, rfl, mk_toList _, mk_toList _, rfl⟩

/-- Claim C2: `write_file` produces exactly, in this order: the heading
line; the NAME line; the UNIT line with the integer right-justified in a
fixed field; the HEADER line; the FORMAT line; and, only when
`package_flows` is non-empty, a final PACKAGE_FLOWS line whose value is the
upper-cased canonically-ordered (SFR, LAK, UZF) subset of the recognized
members, unrecognized members omitted.  In particular (second conjunct),
when the flows contain sfr and uzf in any case, and no lak, the line reads
exactly `PACKAGE_FLOWS SFR UZF `. -/
theorem c2_write_exact (p : ModflowLmt) :
    ((write_file p).toList =
      p.heading.toList ++ '\n' ::
      (fmt_s 20 ("OUTPUT_FILE_NAME ".toList ++ p.output_file_name.toList) ++ '\n' ::
      (fmt_s 20 "OUTPUT_FILE_UNIT ".toList ++ ' ' :: fmt_d 10 p.output_file_unit ++ '\n' ::
      (fmt_s 20 ("OUTPUT_FILE_HEADER ".toList ++ p.output_file_header.toList) ++ '\n' ::
      (fmt_s 20 ("OUTPUT_FILE_FORMAT ".toList ++ p.output_file_format.toList) ++ '\n' ::
      (if p.package_flows = [] then []
       else "PACKAGE_FLOWS ".toList ++ canonicalFlowsChars p.package_flows ++ ['\n']))))))
    ∧ (("sfr" ∈ p.package_flows.map lowerStr ∧ "uzf" ∈ p.package_flows.map lowerStr ∧
        "lak" ∉ p.package_flows.map lowerStr) →
       "PACKAGE_FLOWS ".toList ++ pckgsChars p.package_flows
         = "PACKAGE_FLOWS SFR UZF ".toList) := by
  constructor
  · rw [show (write_file p).toList = writeChars p from rfl, writeChars,
      pckgs_canonical]
    simp only [List.isEmpty_iff]
  · rintro ⟨hs, hu, hl⟩
    simp only [pckgsChars, if_pos hs, if_neg hl, if_pos hu]
    decide

/-- Claim C5: constructing with only the owning model (all optional
parameters at their defaults) yields output_file_name "mt3d_link.ftl",
output_file_unit 54, output_file_header "extended", output_file_format
"unformatted", empty package_flows, and unit number 30. -/
theorem c5_default_construction (m : Model) :
    (mkModflowLmt m).output_file_name = "mt3d_link.ftl" ∧
    (mkModflowLmt m).output_file_unit = 54 ∧
    (mkModflowLmt m).output_file_header = "extended" ∧
    (mkModflowLmt m).output_file_format = "unformatted" ∧
    (mkModflowLmt m).package_flows = [] ∧
    (mkModflowLmt m).unit_number = 30 :=
  ⟨rfl, rfl, rfl, rfl, rfl, rfl⟩

/-- Claim C8: `ftype` and `defaultunit` are the constants "LMT6" and 30.  In
this embedding they are top-level constant definitions, so they are pure,
side-effect-free, need no instance, and cannot depend on instance state. -/
theorem c8_constants : ftype = "LMT6" ∧ defaultunit = 30 := ⟨rfl, rfl⟩

/-- Claim C10: the tokens of the PACKAGE_FLOWS value `write_file` builds are
exactly the canonical subset — membership-tested, not list-iterated — so
each recognized token is emitted at most once (the emitted token list has no
duplicates) even when `package_flows` holds duplicate or differently-cased
copies. -/
theorem c10_no_duplicate_emission (flows : List String) :
    (words (pckgsChars flows)).map String.mk = canonicalSubset flows ∧
    ((words (pckgsChars flows)).map String.mk).Nodup := by
  refine ⟨pckgs_words flows, ?_⟩
  rw [pckgs_words flows, canonicalSubset_ifs]
  by_cases h1 : "sfr" ∈ flows.map lowerStr <;>
    by_cases h2 : "lak" ∈ flows.map lowerStr <;>
      by_cases h3 : "uzf" ∈ flows.map lowerStr <;>
        simp only [h1, h2, h3, if_true, if_false] <;> decide

/-- A concrete host model for the closed instances below. -/
def m0 : Model := { versionLabel := "MODFLOW-2005", verbose := false }

/-- Modelled from the spec: "Derive a default `outputFileName` from the
input filename's base name with extension replaced by `.ftl`" — the stem is
everything before the base name's last dot, and a base name without a dot
has no extension to replace, so it is kept whole. -/
def specDerivedName (fname : String) : String :=
  let b := basenameL fname.toList
  let parts := splitOnChar '.' b
  String.mk ((if 2 ≤ parts.length then joinDots parts.dropLast else b) ++ ".ftl".toList)

theorem splitOnChar_mem_length (c : Char) (l : List Char) (h : c ∈ l) :
    2 ≤ (splitOnChar c l).length := by
  induction l with
  | nil => simp at h
  | cons x xs ih =>
    by_cases hxc : x = c
    · simp only [splitOnChar, if_pos hxc]
      cases hsp : splitOnChar c xs with
      | nil => exact absurd hsp (splitOnChar_ne_nil c xs)
      | cons a t => simp
    · have hx : c ∈ xs := by
        rcases List.mem_cons.1 h with heq | hmem
        · exact absurd heq.symm hxc
        · exact hmem
      simp only [splitOnChar, if_neg hxc]
      cases hsp : splitOnChar c xs with
      | nil => exact absurd hsp (splitOnChar_ne_nil c xs)
      | cons a t =>
        have := ih hx
        rw [hsp] at this
        simpa using this

/-- Claim C3 counterexample: loading a comment-only input via the dotless
filename "test" seeds `output_file_name = "tes.ftl"` — `rfind` returns `-1`
and the slice `prefix[:-1]` drops the stem's last character — while the
claimed "base name with its extension replaced by `.ftl`" gives
"test.ftl". -/
theorem c3_counterexample :
    (load "test" "# comment only\n" m0).map (fun q => q.output_file_name)
      = .ok "tes.ftl"
    ∧ specDerivedName "test" = "test.ftl"
    ∧ ("tes.ftl" : String) ≠ "test.ftl" := by
  refine ⟨rfl, rfl, by decide⟩

/-- Claim C3 (amended): loading an input consisting only of a comment line
is not an error and yields `output_file_unit = 333`, header "standard",
format "unformatted", empty flows, and the seeded default
`output_file_name`, which is the base name cut at its last dot plus ".ftl";
this equals the spec's "extension replaced by .ftl" whenever the base name
contains a dot (for a dotless base name the code instead drops the final
character before appending ".ftl"). -/
theorem c3_load_defaults (fname comment : String) (m : Model)
    (hc : comment.toList.head? = some '#') (hn : '\n' ∉ comment.toList) :
    ∃ q : ModflowLmt, load fname (comment ++ "\n") m = .ok q ∧
      q.output_file_unit = 333 ∧
      q.output_file_header = "standard" ∧
      q.output_file_format = "unformatted" ∧
      q.package_flows = [] ∧
      q.output_file_name
        = String.mk (stripExtL (basenameL fname.toList) ++ ".ftl".toList) ∧
      ('.' ∈ basenameL fname.toList → q.output_file_name = specDerivedName fname) := by
  simp only [load]
  rw [show (comment ++ "\n").toList = comment.toList ++ '\n' :: []
    from toList_append comment "\n"]
  rw [splitOnChar_append '\n' _ _ hn]
  rw [processLines_cons_ok _ _ _ _ (processLine_comment _ _ hc)]
  rw [show splitOnChar '\n' [] = [[]] from rfl]
  rw [processLines_cons_ok _ _ _ _ (processLine_nil _)]
  simp only [processLines]
  refine ⟨_, rfl, rfl, rfl, rfl, rfl, rfl, ?_⟩
  intro hdot
  show String.mk (stripExtL (basenameL fname.toList) ++ ".ftl".toList)
    = specDerivedName fname
  simp only [stripExtL, specDerivedName]
  rw [if_pos (splitOnChar_mem_length '.' _ hdot),
    if_pos (splitOnChar_mem_length '.' _ hdot)]

/-- Claim C4: `load` fails — propagating the `int()` parse error — exactly
when the input has a non-comment line whose first token is
`output_file_unit` (any case) and whose second token is not a valid integer
literal; with no such line it succeeds, so `output_file_unit` is never
silently zeroed, and no other line can make the parse fail. -/
theorem c4_unit_parse_error_iff (fname content : String) (m : Model) :
    (∃ e, load fname content m = .error e) ↔
    ∃ cs ∈ splitOnChar '\n' content.toList, isBadUnitLine cs = true := by
  simp only [load]
  rw [← processLines_error_iff (splitOnChar '\n' content.toList)
    { output_file_name := String.mk (stripExtL (basenameL fname.toList) ++ ".ftl".toList)
      output_file_unit := 333
      output_file_header := "standard"
      output_file_format := "unformatted"
      package_flows := [] }]
  constructor
  · rintro ⟨e, he⟩
    cases hpr : processLines
        { output_file_name := String.mk (stripExtL (basenameL fname.toList) ++ ".ftl".toList)
          output_file_unit := 333
          output_file_header := "standard"
          output_file_format := "unformatted"
          package_flows := [] } (splitOnChar '\n' content.toList) with
    | error e2 => exact ⟨e2, rfl⟩
    | ok s => rw [hpr] at he; simp at he
  · rintro ⟨e, he⟩
    exact ⟨e, by rw [he]⟩

/-- Claim C6: the per-line behavior of `load`'s scan: a line whose first
character is `'#'` is skipped; a line with fewer than two tokens is skipped;
an unrecognized first token alters no field; `output_file_name`,
`output_file_header` and `output_file_format` take exactly the second token;
`output_file_unit` takes the integer parse of the second token; and a
`package_flows` line appends every remaining token, not just the first. -/
theorem c6_line_handling (s : LoadState) (cs : List Char) :
    (cs.head? = some '#' → processLine s cs = .ok s) ∧
    ((words cs).length < 2 → processLine s cs = .ok s) ∧
    (∀ key v rest, cs.head? ≠ some '#' → words cs = key :: v :: rest →
      key.map Char.toLower ∉
        ["output_file_name".toList, "output_file_unit".toList,
         "output_file_header".toList, "output_file_format".toList,
         "package_flows".toList] →
      processLine s cs = .ok s) ∧
    (∀ key v rest, cs.head? ≠ some '#' → words cs = key :: v :: rest →
      key.map Char.toLower = "output_file_name".toList →
      processLine s cs = .ok { s with output_file_name := String.mk v }) ∧
    (∀ key v rest n, cs.head? ≠ some '#' → words cs = key :: v :: rest →
      key.map Char.toLower = "output_file_unit".toList → pyParseInt v = some n →
      processLine s cs = .ok { s with output_file_unit := n }) ∧
    (∀ key v rest, cs.head? ≠ some '#' → words cs = key :: v :: rest →
      key.map Char.toLower = "output_file_header".toList →
      processLine s cs = .ok { s with output_file_header := String.mk v }) ∧
    (∀ key v rest, cs.head? ≠ some '#' → words cs = key :: v :: rest →
      key.map Char.toLower = "output_file_format".toList →
      processLine s cs = .ok { s with output_file_format := String.mk v }) ∧
    (∀ key v rest, cs.head? ≠ some '#' → words cs = key :: v :: rest →
      key.map Char.toLower = "package_flows".toList →
      processLine s cs
        = .ok { s with package_flows := s.package_flows ++ (v :: rest).map String.mk }) := by
  refine ⟨fun hh => processLine_comment s cs hh, ?_, ?_, ?_, ?_, ?_, ?_, ?_⟩
  · intro hlen
    by_cases hh : cs.head? = some '#'
    · exact processLine_comment s cs hh
    · rw [processLine_not_hash s cs hh]
      exact applyTokens_short s (words cs) hlen
  · intro key v rest hh hw hk
    rw [processLine_not_hash s cs hh, hw]
    exact applyTokens_other s key v rest hk
  · intro key v rest hh hw hk
    rw [processLine_not_hash s cs hh, hw]
    exact applyTokens_name s key v rest hk
  · intro key v rest n hh hw hk hp
    rw [processLine_not_hash s cs hh, hw, applyTokens_unit s key v rest hk, hp]
  · intro key v rest hh hw hk
    rw [processLine_not_hash s cs hh, hw]
    exact applyTokens_header s key v rest hk
  · intro key v rest hh hw hk
    rw [processLine_not_hash s cs hh, hw]
    exact applyTokens_format s key v rest hk
  · intro key v rest hh hw hk
    rw [processLine_not_hash s cs hh, hw]
    exact applyTokens_pkg s key v rest hk

/-- A concrete scan state for the closed instances below (the defaults
`load` seeds for an input named "a.lmt"). -/
def s0 : LoadState :=
  { output_file_name := "a.ftl"
    output_file_unit := 333
    output_file_header := "standard"
    output_file_format := "unformatted"
    package_flows := [] }

theorem c6_line_handling_witness :
    processLine s0 "# a comment line".toList = .ok s0 ∧
    processLine s0 "JUSTONE".toList = .ok s0 ∧
    processLine s0 "SOME_UNKNOWN_KEY value".toList = .ok s0 ∧
    processLine s0 "Output_File_Name out.ftl".toList
      = .ok { s0 with output_file_name := String.mk "out.ftl".toList } ∧
    processLine s0 "OUTPUT_FILE_UNIT 54".toList
      = .ok { s0 with output_file_unit := 54 } ∧
    processLine s0 "output_file_header extended".toList
      = .ok { s0 with output_file_header := String.mk "extended".toList } ∧
    processLine s0 "output_file_format formatted".toList
      = .ok { s0 with output_file_format := String.mk "formatted".toList } ∧
    processLine s0 "package_flows sfr FOO lak".toList
      = .ok { s0 with package_flows := s0.package_flows
          ++ (["sfr".toList, "FOO".toList, "lak".toList]).map String.mk } :=
  ⟨(c6_line_handling s0 "# a comment line".toList).1 (by decide),
   (c6_line_handling s0 "JUSTONE".toList).2.1 (by decide),
   (c6_line_handling s0 "SOME_UNKNOWN_KEY value".toList).2.2.1
     "SOME_UNKNOWN_KEY".toList "value".toList [] (by decide) (by decide) (by decide),
   (c6_line_handling s0 "Output_File_Name out.ftl".toList).2.2.2.1
     "Output_File_Name".toList "out.ftl".toList [] (by decide) (by decide) (by decide),
   (c6_line_handling s0 "OUTPUT_FILE_UNIT 54".toList).2.2.2.2.1
     "OUTPUT_FILE_UNIT".toList "54".toList [] 54 (by decide) (by decide) (by decide) (by decide),
   (c6_line_handling s0 "output_file_header extended".toList).2.2.2.2.2.1
     "output_file_header".toList "extended".toList [] (by decide) (by decide) (by decide),
   (c6_line_handling s0 "output_file_format formatted".toList).2.2.2.2.2.2.1
     "output_file_format".toList "formatted".toList [] (by decide) (by decide) (by decide),
   (c6_line_handling s0 "package_flows sfr FOO lak".toList).2.2.2.2.2.2.2
     "package_flows".toList "sfr".toList ["FOO".toList, "lak".toList]
     (by decide) (by decide) (by decide)⟩

theorem load_flows (fname content : String) (m : Model) (q : ModflowLmt)
    (h : load fname content m = .ok q) :
    q.package_flows = collectFlows (splitOnChar '\n' content.toList) := by
  simp only [load] at h
  cases hpr : processLines
      { output_file_name := String.mk (stripExtL (basenameL fname.toList) ++ ".ftl".toList)
        output_file_unit := 333
        output_file_header := "standard"
        output_file_format := "unformatted"
        package_flows := [] } (splitOnChar '\n' content.toList) with
  | error e => rw [hpr] at h; simp at h
  | ok s =>
    rw [hpr] at h
    injection h with h
    subst h
    have := processLines_flows (splitOnChar '\n' content.toList)
      { output_file_name := String.mk (stripExtL (basenameL fname.toList) ++ ".ftl".toList)
        output_file_unit := 333
        output_file_header := "standard"
        output_file_format := "unformatted"
        package_flows := [] } s hpr
    simpa using this

theorem canonicalSubset_cases (f : List String) (x : String)
    (h : x ∈ canonicalSubset f) : x = "SFR" ∨ x = "LAK" ∨ x = "UZF" := by
  rw [canonicalSubset_ifs] at h
  by_cases h1 : "sfr" ∈ f.map lowerStr <;>
    by_cases h2 : "lak" ∈ f.map lowerStr <;>
      by_cases h3 : "uzf" ∈ f.map lowerStr <;>
        simp only [h1, h2, h3, if_true, if_false] at h <;> simp at h <;> tauto

/-- Claim C7: a token on a recognized `package_flows` input line that is not
itself a recognized member is preserved verbatim in the loaded
`package_flows`, but `write_file` does not emit it in its PACKAGE_FLOWS
value — so load-then-write is lossy exactly for unrecognized flow tokens. -/
theorem c7_unrecognized_flow_lossy (fname content : String) (m : Model)
    (q : ModflowLmt) (tok : List Char)
    (hq : load fname content m = .ok q)
    (hline : ∃ cs ∈ splitOnChar '\n' content.toList, cs.head? ≠ some '#' ∧
      ∃ key v rest, words cs = key :: v :: rest ∧
        key.map Char.toLower = "package_flows".toList ∧ tok ∈ v :: rest)
    (hunrec : tok.map Char.toLower ≠ "sfr".toList ∧
      tok.map Char.toLower ≠ "lak".toList ∧ tok.map Char.toLower ≠ "uzf".toList) :
    String.mk tok ∈ q.package_flows ∧
    String.mk tok ∉ (words (pckgsChars q.package_flows)).map String.mk := by
  constructor
  · rw [load_flows fname content m q hq]
    obtain ⟨cs, hcs, hh, key, v, rest, hw, hk, htok⟩ := hline
    have hlf : lineFlows cs = (v :: rest).map String.mk := by
      rw [lineFlows, if_neg hh, hw]
      simp only [if_pos hk]
    refine List.mem_flatten.2 ⟨lineFlows cs, List.mem_map_of_mem lineFlows hcs, ?_⟩
    rw [hlf]
    exact List.mem_map_of_mem String.mk htok
  · intro hmem
    rw [pckgs_words] at hmem
    rcases canonicalSubset_cases _ _ hmem with he | he | he
    · have ht : tok = "SFR".toList := congrArg String.toList he
      exact hunrec.1 (by rw [ht]; decide)
    · have ht : tok = "LAK".toList := congrArg String.toList he
      exact hunrec.2.1 (by rw [ht]; decide)
    · have ht : tok = "UZF".toList := congrArg String.toList he
      exact hunrec.2.2 (by rw [ht]; decide)

/-- The LinkageConfig that loading `PACKAGE_FLOWS FOO sfr` from a file named
"a.lmt" produces. -/
def q0 : ModflowLmt :=
  mkModflowLmt m0 "a.ftl" 333 "standard" "unformatted" "lmt6" ["FOO", "sfr"] none

theorem c7_unrecognized_flow_lossy_witness :
    String.mk "FOO".toList ∈ q0.package_flows ∧
    String.mk "FOO".toList ∉ (words (pckgsChars q0.package_flows)).map String.mk :=
  c7_unrecognized_flow_lossy "a.lmt" "PACKAGE_FLOWS FOO sfr\n" m0 q0 "FOO".toList
    rfl
    ⟨"PACKAGE_FLOWS FOO sfr".toList, by decide, by decide,
      "PACKAGE_FLOWS".toList, "FOO".toList, ["sfr".toList],
      by decide, by decide, by decide⟩
    ⟨by decide, by decide, by decide⟩

/-- Claim C9: among several lines carrying the same recognized scalar
keyword the last one wins — after the scan the field holds that line's
second token — while `package_flows` lines accumulate: the final list is the
initial one followed by every line's contribution in order. -/
theorem c9_last_wins_accumulate :
    (∀ (s s' : LoadState) (L : List (List Char)) (cs key v : List Char)
        (rest : List (List Char)),
      cs.head? ≠ some '#' → words cs = key :: v :: rest →
      key.map Char.toLower = "output_file_name".toList →
      processLines s (L ++ [cs]) = .ok s' → s'.output_file_name = String.mk v) ∧
    (∀ (s s' : LoadState) (L : List (List Char)) (cs key v : List Char)
        (rest : List (List Char)) (n : Int),
      cs.head? ≠ some '#' → words cs = key :: v :: rest →
      key.map Char.toLower = "output_file_unit".toList → pyParseInt v = some n →
      processLines s (L ++ [cs]) = .ok s' → s'.output_file_unit = n) ∧
    (∀ (s s' : LoadState) (L : List (List Char)) (cs key v : List Char)
        (rest : List (List Char)),
      cs.head? ≠ some '#' → words cs = key :: v :: rest →
      key.map Char.toLower = "output_file_header".toList →
      processLines s (L ++ [cs]) = .ok s' → s'.output_file_header = String.mk v) ∧
    (∀ (s s' : LoadState) (L : List (List Char)) (cs key v : List Char)
        (rest : List (List Char)),
      cs.head? ≠ some '#' → words cs = key :: v :: rest →
      key.map Char.toLower = "output_file_format".toList →
      processLines s (L ++ [cs]) = .ok s' → s'.output_file_format = String.mk v) ∧
    (∀ (s s' : LoadState) (lines : List (List Char)),
      processLines s lines = .ok s' →
      s'.package_flows = s.package_flows ++ collectFlows lines) := by
  refine ⟨?_, ?_, ?_, ?_, fun s s' lines h => processLines_flows lines s s' h⟩
  · intro s s' L cs key v rest hh hw hk h
    obtain ⟨s1, -, hlast⟩ := processLines_append L [cs] s s' h
    rw [processLines_cons_ok _ _ _ _ (by
        rw [processLine_not_hash s1 cs hh, hw]
        exact applyTokens_name s1 key v rest hk)] at hlast
    injection hlast with hlast
    rw [← hlast]
  · intro s s' L cs key v rest n hh hw hk hp h
    obtain ⟨s1, -, hlast⟩ := processLines_append L [cs] s s' h
    rw [processLines_cons_ok _ _ _ _ (by
        rw [processLine_not_hash s1 cs hh, hw, applyTokens_unit s1 key v rest hk, hp])] at hlast
    injection hlast with hlast
    rw [← hlast]
  · intro s s' L cs key v rest hh hw hk h
    obtain ⟨s1, -, hlast⟩ := processLines_append L [cs] s s' h
    rw [processLines_cons_ok _ _ _ _ (by
        rw [processLine_not_hash s1 cs hh, hw]
        exact applyTokens_header s1 key v rest hk)] at hlast
    injection hlast with hlast
    rw [← hlast]
  · intro s s' L cs key v rest hh hw hk h
    obtain ⟨s1, -, hlast⟩ := processLines_append L [cs] s s' h
    rw [processLines_cons_ok _ _ _ _ (by
        rw [processLine_not_hash s1 cs hh, hw]
        exact applyTokens_format s1 key v rest hk)] at hlast
    injection hlast with hlast
    rw [← hlast]

theorem c9_last_wins_accumulate_witness :
    (({ s0 with output_file_name := String.mk "second.ftl".toList } : LoadState).output_file_name
      = String.mk "second.ftl".toList) ∧
    (({ s0 with output_file_unit := 99 } : LoadState).output_file_unit = 99) ∧
    (({ s0 with output_file_header := String.mk "compact".toList } : LoadState).output_file_header
      = String.mk "compact".toList) ∧
    (({ s0 with output_file_format := String.mk "formatted".toList } : LoadState).output_file_format
      = String.mk "formatted".toList) ∧
    (({ s0 with package_flows := [String.mk "sfr".toList, String.mk "FOO".toList] }
        : LoadState).package_flows
      = s0.package_flows ++ collectFlows
          ["package_flows sfr".toList, "package_flows FOO".toList]) :=
  ⟨c9_last_wins_accumulate.1 s0 _ ["output_file_name first.ftl".toList]
      "output_file_name second.ftl".toList "output_file_name".toList
      "second.ftl".toList [] (by decide) (by decide) (by decide) rfl,
   c9_last_wins_accumulate.2.1 s0 _ ["OUTPUT_FILE_UNIT 1".toList]
      "output_file_unit 99".toList "output_file_unit".toList "99".toList [] 99
      (by decide) (by decide) (by decide) (by decide) rfl,
   c9_last_wins_accumulate.2.2.1 s0 _ ["output_file_header extended".toList]
      "output_file_header compact".toList "output_file_header".toList
      "compact".toList [] (by decide) (by decide) (by decide) rfl,
   c9_last_wins_accumulate.2.2.2.1 s0 _ ["output_file_format unformatted".toList]
      "output_file_format formatted".toList "output_file_format".toList
      "formatted".toList [] (by decide) (by decide) (by decide) rfl,
   c9_last_wins_accumulate.2.2.2.2 s0 _
      ["package_flows sfr".toList, "package_flows FOO".toList] rfl⟩

/-- A concrete LinkageConfig exercising the round trip. -/
def p0 : ModflowLmt :=
  mkModflowLmt m0 "out.ftl" 54 "extended" "unformatted" "lmt6" ["UZF", "sfr"] none

theorem c1_round_trip_witness :
    ∃ q : ModflowLmt, load "test.lmt" (write_file p0) m0 = .ok q ∧
      q.output_file_name = p0.output_file_name ∧
      q.output_file_unit = p0.output_file_unit ∧
      q.output_file_header = p0.output_file_header ∧
      q.output_file_format = p0.output_file_format ∧
      q.package_flows = canonicalSubset p0.package_flows :=
  c1_round_trip p0 m0 "test.lmt" (by decide) (by decide) ⟨by decide, by decide⟩
    ⟨by decide, by decide⟩ ⟨by decide, by decide⟩ (by decide)

/-- A concrete LinkageConfig whose flows hold case-variant recognized
tokens and an unrecognized one. -/
def p1 : ModflowLmt :=
  mkModflowLmt m0 "mt3d_link.ftl" 54 "extended" "unformatted" "lmt6"
    ["Uzf", "sFr", "FOO"] none

theorem c2_write_exact_witness :
    "PACKAGE_FLOWS ".toList ++ pckgsChars p1.package_flows
      = "PACKAGE_FLOWS SFR UZF ".toList :=
  (c2_write_exact p1).2 ⟨by decide, by decide, by decide⟩

theorem c3_load_defaults_witness :
    ∃ q : ModflowLmt, load "model.lmt" ("# only a comment" ++ "\n") m0 = .ok q ∧
      q.output_file_unit = 333 ∧
      q.output_file_header = "standard" ∧
      q.output_file_format = "unformatted" ∧
      q.package_flows = [] ∧
      q.output_file_name
        = String.mk (stripExtL (basenameL "model.lmt".toList) ++ ".ftl".toList) ∧
      ('.' ∈ basenameL "model.lmt".toList →
        q.output_file_name = specDerivedName "model.lmt") :=
  c3_load_defaults "model.lmt" "# only a comment" m0 (by decide) (by decide)
